import Mathlib

/-!
# Clase1/server.go : an in-memory album store behind three HTTP handlers

Shallow embedding of `src/Clase1/server.go`.

* The package-level slice `albums` becomes an explicit state of type `List album`;
  every handler is a function from its input and the state to the new state and the
  response handed to `c.IndentedJSON` (status code and the value to be rendered).
* Go `int` is modelled by `Int`; the only place where its width matters is the decoding
  of a JSON number into an `int` field (`strconv.ParseInt(s, 10, 64)`), where the range
  check is explicit.
* Go strings are modelled by `String`.
* `strconv.Itoa` and `c.BindJSON` (gin on top of `encoding/json`) are library code; they
  are embedded below from the behaviour of the Go standard library.
-/

namespace Clase1

/-! ## Data model -/

/-- Go `type album struct`, fields `ID`, `Title`, `Artist`, `Year`
(JSON names `id`, `title`, `artist`, `year`). -/
structure album where
  ID : Int
  Title : String
  Artist : String
  Year : Int
  deriving DecidableEq

/-- Go `var albums = []album{...}`: the value of the collection at process start. -/
def albums : List album :=
  [ { ID := 1, Title := "Abbey Road", Artist := "The Beatles", Year := 1969 },
    { ID := 2, Title := "The Dark Side of the Moon", Artist := "Pink Floyd", Year := 1973 },
    { ID := 3, Title := "Thriller", Artist := "Michael Jackson", Year := 1982 },
    { ID := 4, Title := "Back in Black", Artist := "AC/DC", Year := 1980 } ]

/-- Go `http.StatusOK`. -/
def StatusOK : Nat := 200
/-- Go `http.StatusCreated`. -/
def StatusCreated : Nat := 201
/-- Go `http.StatusBadRequest`. -/
def StatusBadRequest : Nat := 400
/-- Go `http.StatusNotFound`. -/
def StatusNotFound : Nat := 404

/-- The second argument of `c.IndentedJSON`: the slice of albums, one album, or a `gin.H`
map with text values (listed as key/value pairs). -/
inductive Rendered where
  | list (xs : List album)
  | record (a : album)
  | h (entries : List (String × String))
  deriving DecidableEq

/-- One call `c.IndentedJSON(code, obj)`. -/
structure Response where
  code : Nat
  obj : Rendered
  deriving DecidableEq

/-! ## strconv.Itoa -/

/-- The decimal digit character of `d` (Go indexes the constant `"0123456789..."`). -/
def digit (d : Nat) : Char :=
  match d with
  | 0 => '0' | 1 => '1' | 2 => '2' | 3 => '3' | 4 => '4'
  | 5 => '5' | 6 => '6' | 7 => '7' | 8 => '8' | _ => '9'

/-- The decimal digits `strconv.formatBits` writes for `u` in base 10, most significant
first: a single digit when `u < 10`, otherwise the digits of `u / 10` followed by the
digit `u % 10` (Go fills its buffer from the right, two digits at a time; the text is
the same). The first argument bounds the number of divisions; `u + 1` is always
enough. -/
def formatBits : Nat → Nat → List Char
  | 0, _ => []
  | fuel + 1, u =>
      if u < 10 then [digit u] else formatBits fuel (u / 10) ++ [digit (u % 10)]

/-- Decimal digits of a natural number, most significant first. -/
def formatUint (u : Nat) : List Char := formatBits (u + 1) u

/-- Go `strconv.Itoa`: a minus sign for a negative value, then the digits of the
magnitude. -/
def Itoa (i : Int) : String :=
  if i < 0 then String.mk ('-' :: formatUint i.natAbs) else String.mk (formatUint i.natAbs)

/-! ## Handlers that read -/

/-- Go `getAlbums`: status 200 and the whole slice; the slice is not touched. -/
def getAlbums (albums : List album) : List album × Response :=
  (albums, ⟨StatusOK, .list albums⟩)

/-- The `for _, a := range albums` loop of `getAlbumByID`: the first album, in slice
order, whose `strconv.Itoa(a.ID)` equals `id`. -/
def scan (id : String) : List album → Option album
  | [] => none
  | a :: rest => if id = Itoa a.ID then some a else scan id rest

/-- Go `getAlbumByID`, with `id` the value of `c.Param("id")`. -/
def getAlbumByID (id : String) (albums : List album) : List album × Response :=
  match scan id albums with
  | some a => (albums, ⟨StatusOK, .record a⟩)
  | none => (albums, ⟨StatusNotFound, .h [("message", "album not found")]⟩)

/-! ## c.BindJSON : gin over encoding/json -/

/-- A JSON value as read by `encoding/json`. A number literal without fraction and
exponent part is `int` (its value; the literal `-0` is `int 0`); a number literal with a
fraction or an exponent part is `frac` (its text). -/
inductive JSON where
  | null
  | bool (b : Bool)
  | int (n : Int)
  | frac (lit : String)
  | str (s : String)
  | arr (xs : List JSON)
  | obj (kvs : List (String × JSON))

/-- Go `maxNestingDepth` of `encoding/json`: the scanner refuses a value as soon as more
than this many arrays and objects are open at once. -/
def maxNestingDepth : Nat := 10000

mutual
/-- The largest number of arrays and objects open at once while the value is read (the
height of the scanner's `parseState` stack): 0 for a literal, one more than the deepest
element or member value for an array or an object. -/
def JSON.depth : JSON → Nat
  | .arr xs => 1 + depthList xs
  | .obj kvs => 1 + depthMembers kvs
  | _ => 0
/-- The depth of the deepest element of an array. -/
def depthList : List JSON → Nat
  | [] => 0
  | x :: xs => max x.depth (depthList xs)
/-- The depth of the deepest member value of an object. -/
def depthMembers : List (String × JSON) → Nat
  | [] => 0
  | kv :: kvs => max kv.2.depth (depthMembers kvs)
end

/-- The request body as `json.Decoder.Decode` sees it: either it does not start with a
JSON value that follows the grammar (empty body, syntax error), or it starts with the
value `v` (whatever follows that value is not read). -/
inductive Body where
  | malformed
  | value (v : JSON)

/-- The errors `c.BindJSON` can return for the type `album`. -/
inductive BindError where
  | syntaxError
  | unmarshalTypeError
  deriving DecidableEq

/-- The four fields of `album`. -/
inductive Field where
  | ID | Title | Artist | Year
  deriving DecidableEq

/-- Go `foldRune` of `encoding/json`, as far as it can produce an ASCII letter: the
smallest rune of the simple case-folding orbit. ASCII lower case letters go to upper
case, U+017F (long s) goes to `S`, U+212A (Kelvin sign) goes to `K`; no other rune has
an ASCII letter in its orbit, and such a rune is left as it is here. -/
def foldRune (c : Char) : Char :=
  if 97 ≤ c.toNat ∧ c.toNat ≤ 122 then Char.ofNat (c.toNat - 32)
  else if c.toNat = 0x017F then 'S'
  else if c.toNat = 0x212A then 'K'
  else c

/-- Go `foldName`: the key with every rune folded. -/
def foldName (key : String) : String := String.mk (key.data.map foldRune)

/-- The field of `album` an object key is decoded into: `byExactName` first, then
`byFoldedName` (keys match field names without regard to case); `none` for a key that
names no field, whose value is skipped. -/
def fieldOf (key : String) : Option Field :=
  if key = "id" then some .ID
  else if key = "title" then some .Title
  else if key = "artist" then some .Artist
  else if key = "year" then some .Year
  else if foldName key = "ID" then some .ID
  else if foldName key = "TITLE" then some .Title
  else if foldName key = "ARTIST" then some .Artist
  else if foldName key = "YEAR" then some .Year
  else none

/-- Bit size of Go `int` (`strconv.IntSize`) on a 64-bit platform. -/
def intSize : Nat := 64

/-- Go `strconv.ParseInt(s, 10, 64)` followed by `v.OverflowInt(n)` on the text of an
integer literal of value `n`: the value, when it fits a Go `int`. -/
def ParseInt (n : Int) : Option Int :=
  if -(2 : Int) ^ (intSize - 1) ≤ n ∧ n < (2 : Int) ^ (intSize - 1) then some n else none

/-- Go `decodeState` while an `album` is being filled: the album so far and whether an
error has been saved (`d.saveError` keeps the first one; decoding goes on). -/
structure decodeState where
  v : album
  savedError : Bool
  deriving DecidableEq

/-- Go `d.saveError(&UnmarshalTypeError{...})`. -/
def saveError (d : decodeState) : decodeState := { d with savedError := true }

/-- Go `d.value(subv)` for the field `f` of the album: `literalStore`, `array` or
`object` on a destination of kind `int` (`ID`, `Year`) or `string` (`Title`, `Artist`).
`null` has no effect on such a destination; an integer literal in range is stored in an
`int`, a string in a `string`; everything else saves an `UnmarshalTypeError` and leaves
the field as it was. -/
def store (d : decodeState) (f : Field) (val : JSON) : decodeState :=
  match f, val with
  | _, .null => d
  | .ID, .int n =>
      match ParseInt n with
      | some m => { d with v := { d.v with ID := m } }
      | none => saveError d
  | .Year, .int n =>
      match ParseInt n with
      | some m => { d with v := { d.v with Year := m } }
      | none => saveError d
  | .Title, .str s => { d with v := { d.v with Title := s } }
  | .Artist, .str s => { d with v := { d.v with Artist := s } }
  | _, _ => saveError d

/-- Go `d.object(v)` for `v` of type `album`: the members are handled in the order of
the text, each key resolved by `fieldOf`. -/
def object (kvs : List (String × JSON)) (d : decodeState) : decodeState :=
  kvs.foldl
    (fun d kv =>
      match fieldOf kv.1 with
      | some f => store d f kv.2
      | none => d)
    d

/-- The value of `var newAlbum album` before decoding. -/
def zeroAlbum : album := { ID := 0, Title := "", Artist := "", Year := 0 }

/-- Go `d.unmarshal(&newAlbum)`: `null` has no effect, an object is decoded member by
member, any other value is an `UnmarshalTypeError`; the saved error, if any, is
returned at the end. -/
def unmarshal (j : JSON) : Except BindError album :=
  match j with
  | .null => .ok zeroAlbum
  | .obj kvs =>
      let d := object kvs { v := zeroAlbum, savedError := false }
      if d.savedError then .error .unmarshalTypeError else .ok d.v
  | _ => .error .unmarshalTypeError

/-- Go `c.BindJSON(&newAlbum)`: `json.NewDecoder(body).Decode(&newAlbum)`, then the
validator, which has nothing to check because `album` carries no `binding` tag.
`Decode` first scans the value and returns a `SyntaxError` (exceeded max depth) when it
is nested deeper than `maxNestingDepth`, whatever the members are; only then is the
value unmarshalled. -/
def BindJSON (body : Body) : Except BindError album :=
  match body with
  | .malformed => .error .syntaxError
  | .value j => if j.depth ≤ maxNestingDepth then unmarshal j else .error .syntaxError

/-! ## The handler that writes -/

/-- Go `postAlbums`: on a bind error status 400 with `gin.H{"error": "Invalid JSON"}`
and no change; otherwise the album is appended and returned with status 201. -/
def postAlbums (body : Body) (albums : List album) : List album × Response :=
  match BindJSON body with
  | .error _ => (albums, ⟨StatusBadRequest, .h [("error", "Invalid JSON")]⟩)
  | .ok newAlbum => (albums ++ [newAlbum], ⟨StatusCreated, .record newAlbum⟩)

/-! ## Requests -/

/-- A request as routed by `main`: `GET /albums`, `POST /albums` with a body,
`GET /albums/:id` with the path parameter. -/
inductive Request where
  | list
  | create (body : Body)
  | byID (id : String)

/-- The routing table of `main`. -/
def serve (r : Request) (albums : List album) : List album × Response :=
  match r with
  | .list => getAlbums albums
  | .create body => postAlbums body albums
  | .byID id => getAlbumByID id albums

/-- The collection after a sequence of requests handled one after the other. -/
def run (rs : List Request) (albums : List album) : List album :=
  rs.foldl (fun s r => (serve r s).1) albums

/-- The JSON object `json.Marshal` writes for an album: the four members in field
order. -/
def encode (a : album) : JSON :=
  .obj [("id", .int a.ID), ("title", .str a.Title), ("artist", .str a.Artist),
        ("year", .int a.Year)]

/-! ## Notions used to state the properties -/

/-- Value of a decimal digit character (0 for any other character). -/
def digitVal (c : Char) : Nat := c.toNat - 48

/-- The number a list of decimal digits denotes, most significant digit first. -/
def parseUint (cs : List Char) : Nat := cs.foldl (fun acc c => 10 * acc + digitVal c) 0

/-- The integer a text denotes when read as an optional minus sign followed by digits. -/
def parseDecimal (v : String) : Int :=
  match v.data with
  | '-' :: rest => -(parseUint rest : Int)
  | cs => (parseUint cs : Int)

/-- The first album of the slice, in slice order, whose `ID` is `n`. -/
def firstWithID (n : Int) (s : List album) : Option album :=
  s.find? (fun a => decide (a.ID = n))

/-- The response of `getAlbumByID` when no album matches. -/
def notFound : Response := ⟨StatusNotFound, .h [("message", "album not found")]⟩

/-- Canonical decimal digits of a natural number: at least one digit, all characters
digits, and no leading zero unless the text is the single digit `0`. -/
def canonicalUint : List Char → Bool
  | [] => false
  | [c] => c.isDigit
  | c :: rest => c.isDigit && c != '0' && rest.all Char.isDigit

/-- Canonical decimal form of an integer: canonical digits, preceded by a minus sign
for a negative number only (so `-0` is not canonical). -/
def isCanonicalDecimal (v : String) : Bool :=
  match v.data with
  | '-' :: rest => canonicalUint rest && rest != ['0']
  | cs => canonicalUint cs

/-- The values of the members of an object that are decoded into the field `f`, in the
order of the text. -/
def members (kvs : List (String × JSON)) (f : Field) : List JSON :=
  (kvs.filter (fun kv => decide (fieldOf kv.1 = some f))).map (fun kv => kv.2)

/-- The JSON value of the field `f` of an album. -/
def fieldValue (a : album) (f : Field) : JSON :=
  match f with
  | .ID => .int a.ID
  | .Title => .str a.Title
  | .Artist => .str a.Artist
  | .Year => .int a.Year

/-- The value is the JSON `null`. -/
def isNull : JSON → Bool
  | .null => true
  | _ => false

/-- The value has the primitive type of the field: an integer literal for `id` and
`year`, a string for `title` and `artist`. -/
def hasType (f : Field) (val : JSON) : Bool :=
  match f, val with
  | .ID, .int _ => true
  | .Year, .int _ => true
  | .Title, .str _ => true
  | .Artist, .str _ => true
  | _, _ => false

/-- The integer is in the range of a signed 64-bit Go `int`. -/
def fitsInt (n : Int) : Bool :=
  decide (-9223372036854775808 ≤ n ∧ n ≤ 9223372036854775807)

/-- The value can be stored in the field: it has the type of the field and, for an
integer, it is in the range of a Go `int`. -/
def storable (f : Field) (val : JSON) : Bool :=
  match f, val with
  | .ID, .int n => fitsInt n
  | .Year, .int n => fitsInt n
  | .Title, .str _ => true
  | .Artist, .str _ => true
  | _, _ => false

/-- The member names a field of `album` and holds a value that is neither `null` nor
storable in that field. -/
def rejected (kv : String × JSON) : Bool :=
  match fieldOf kv.1 with
  | some f => !isNull kv.2 && !storable f kv.2
  | none => false

/-- The value `null` inside `n` nested arrays. -/
def nest : Nat → JSON
  | 0 => .null
  | n + 1 => .arr [nest n]

/-- The response of `postAlbums` on a bind error. -/
def badRequest : Response := ⟨StatusBadRequest, .h [("error", "Invalid JSON")]⟩

/-! ## Theorems -/

theorem digit_isDigit (d : Nat) : (digit d).isDigit = true := by
  unfold digit
  split <;> decide

theorem digitVal_digit (d : Nat) (h : d < 10) : digitVal (digit d) = d := by
  interval_cases d <;> rfl

theorem digit_ne_zero (d : Nat) (h : 1 ≤ d) : digit d ≠ '0' := by
  unfold digit
  split <;> first | omega | decide

theorem parseUint_append (cs : List Char) (c : Char) :
    parseUint (cs ++ [c]) = 10 * parseUint cs + digitVal c := by
  simp [parseUint, List.foldl_append]

theorem parseUint_formatBits (fuel u : Nat) (h : u < fuel) :
    parseUint (formatBits fuel u) = u := by
  induction fuel generalizing u with
  | zero => omega
  | succ fuel ih =>
    unfold formatBits
    split
    · next hu => simp [parseUint, digitVal_digit u hu]
    · next hu =>
      rw [parseUint_append, ih (u / 10) (by omega), digitVal_digit _ (Nat.mod_lt _ (by omega))]
      omega

theorem formatBits_isDigit (fuel u : Nat) : ∀ c ∈ formatBits fuel u, c.isDigit = true := by
  induction fuel generalizing u with
  | zero => intro c hc; simp [formatBits] at hc
  | succ fuel ih =>
    intro c hc
    unfold formatBits at hc
    split at hc
    · simp at hc; subst hc; exact digit_isDigit u
    · rcases List.mem_append.1 hc with h | h
      · exact ih _ c h
      · simp at h; subst h; exact digit_isDigit _

theorem parseUint_formatUint (u : Nat) : parseUint (formatUint u) = u :=
  parseUint_formatBits (u + 1) u (Nat.lt_succ_self u)

theorem formatUint_head_ne_minus (u : Nat) (cs : List Char) : formatUint u ≠ '-' :: cs := by
  intro h
  have := formatBits_isDigit (u + 1) u '-' (by unfold formatUint at h; rw [h]; simp)
  exact absurd this (by decide)

theorem parseDecimal_Itoa (i : Int) : parseDecimal (Itoa i) = i := by
  unfold Itoa
  split
  · next h =>
    simp only [parseDecimal, parseUint_formatUint]
    omega
  · next h =>
    unfold parseDecimal
    split
    · next rest heq => exact absurd heq (formatUint_head_ne_minus _ _)
    · simp only [parseUint_formatUint]; omega

theorem Itoa_injective (i j : Int) (h : Itoa i = Itoa j) : i = j := by
  rw [← parseDecimal_Itoa i, ← parseDecimal_Itoa j, h]

theorem scan_Itoa (n : Int) (s : List album) : scan (Itoa n) s = firstWithID n s := by
  induction s with
  | nil => rfl
  | cons a rest ih =>
    unfold scan firstWithID
    by_cases h : a.ID = n
    · simp [h]
    · have h' : Itoa n ≠ Itoa a.ID := fun e => h (Itoa_injective _ _ e).symm
      simp only [h', if_false, List.find?, h, decide_False]
      exact ih

theorem scan_eq_none_iff (id : String) (s : List album) :
    scan id s = none ↔ ∀ a ∈ s, Itoa a.ID ≠ id := by
  induction s with
  | nil => simp [scan]
  | cons a rest ih =>
    unfold scan
    by_cases h : id = Itoa a.ID
    · simp [h]
    · simp only [h, if_false, ih, List.mem_cons, forall_eq_or_imp]
      exact ⟨fun hr => ⟨fun e => h e.symm, hr⟩, fun hr => hr.2⟩

theorem firstWithID_of_mem (s : List album) (x : album) (hx : x ∈ s) :
    ∃ y, firstWithID x.ID s = some y := by
  cases h : firstWithID x.ID s with
  | some y => exact ⟨y, rfl⟩
  | none =>
    unfold firstWithID at h
    rw [List.find?_eq_none] at h
    exact absurd (h x hx) (by simp)

theorem firstWithID_append_of_fresh (n : Int) (pre post : List album)
    (h : ∀ a ∈ pre, a.ID ≠ n) : firstWithID n (pre ++ post) = firstWithID n post := by
  induction pre with
  | nil => rfl
  | cons a rest ih =>
    have ha : a.ID ≠ n := h a (List.mem_cons_self _ _)
    have := ih (fun b hb => h b (List.mem_cons_of_mem _ hb))
    simpa [firstWithID, List.find?, ha] using this

theorem firstWithID_append_of_some (n : Int) (pre post : List album) (y : album)
    (h : firstWithID n pre = some y) : firstWithID n (pre ++ post) = some y := by
  induction pre with
  | nil => simp [firstWithID] at h
  | cons a rest ih =>
    by_cases ha : a.ID = n
    · simp [firstWithID, List.find?, ha] at h ⊢
      exact h
    · simp only [firstWithID, List.find?, ha, decide_False, List.cons_append] at h ⊢
      exact ih h

theorem getAlbumByID_of_first (n : Int) (s : List album) (y : album)
    (h : firstWithID n s = some y) :
    getAlbumByID (Itoa n) s = (s, ⟨StatusOK, .record y⟩) := by
  simp [getAlbumByID, scan_Itoa, h]

theorem getAlbumByID_of_none (id : String) (s : List album) (h : scan id s = none) :
    getAlbumByID id s = (s, notFound) := by
  simp [getAlbumByID, h, notFound]

/-- Claim C2. For every collection and every album `x` in it, `getAlbumByID` called with
`strconv.Itoa(x.ID)` answers 200 with the first album of the collection, in insertion
order, whose `ID` equals `x.ID`, and leaves the collection as it is; that album is `x`
itself when no album before `x` has the same `ID`. -/
theorem getAlbumByID_found (s : List album) (x : album) (hx : x ∈ s) :
    ∃ y, firstWithID x.ID s = some y ∧
      getAlbumByID (Itoa x.ID) s = (s, ⟨StatusOK, .record y⟩) ∧
      (∀ pre post, s = pre ++ x :: post → (∀ a ∈ pre, a.ID ≠ x.ID) → y = x) := by
  obtain ⟨y, hy⟩ := firstWithID_of_mem s x hx
  refine ⟨y, hy, getAlbumByID_of_first _ _ _ hy, ?_⟩
  intro pre post hs hpre
  rw [hs, firstWithID_append_of_fresh _ _ _ hpre] at hy
  simpa [firstWithID, List.find?] using hy.symm

theorem getAlbumByID_found_witness :
    (⟨3, "Thriller", "Michael Jackson", 1982⟩ : album) ∈ albums ∧
    ∃ y, firstWithID 3 albums = some y ∧
      getAlbumByID (Itoa 3) albums = (albums, ⟨StatusOK, .record y⟩) ∧
      (∀ pre post, albums = pre ++ ⟨3, "Thriller", "Michael Jackson", 1982⟩ :: post →
        (∀ a ∈ pre, a.ID ≠ 3) → y = ⟨3, "Thriller", "Michael Jackson", 1982⟩) :=
  ⟨by decide, getAlbumByID_found albums ⟨3, "Thriller", "Michael Jackson", 1982⟩ (by decide)⟩

/-- Claim C3. For every collection and every text `v`: when no album of the collection has
`strconv.Itoa(a.ID)` equal to `v`, `getAlbumByID` answers 404 with the map holding
`message: album not found` (no album) and leaves the collection as it is; and it answers
404 only in that case. -/
theorem getAlbumByID_notFound_iff (s : List album) (v : String) :
    ((∀ a ∈ s, Itoa a.ID ≠ v) → getAlbumByID v s = (s, notFound)) ∧
    ((getAlbumByID v s).2.code = StatusNotFound → ∀ a ∈ s, Itoa a.ID ≠ v) := by
  constructor
  · intro h
    exact getAlbumByID_of_none v s ((scan_eq_none_iff v s).2 h)
  · intro h
    rw [← scan_eq_none_iff]
    unfold getAlbumByID at h
    cases hs : scan v s with
    | none => rfl
    | some a =>
      rw [hs] at h
      simp [StatusOK, StatusNotFound] at h

theorem getAlbumByID_notFound_iff_witness :
    (∀ a ∈ albums, Itoa a.ID ≠ "999") ∧
    getAlbumByID "999" albums = (albums, notFound) ∧
    ((getAlbumByID "999" albums).2.code = StatusNotFound ∧
      ∀ a ∈ albums, Itoa a.ID ≠ "999") :=
  ⟨by decide, (getAlbumByID_notFound_iff albums "999").1 (by decide),
    by decide, (getAlbumByID_notFound_iff albums "999").2 (by decide)⟩

theorem formatBits_head (fuel u : Nat) (h : u < fuel) (h1 : 1 ≤ u) :
    ∃ c rest, formatBits fuel u = c :: rest ∧ c ≠ '0' := by
  induction fuel generalizing u with
  | zero => omega
  | succ fuel ih =>
    unfold formatBits
    split
    · exact ⟨digit u, [], rfl, digit_ne_zero u h1⟩
    · obtain ⟨c, rest, hc, hne⟩ := ih (u / 10) (by omega) (by omega)
      exact ⟨c, rest ++ [digit (u % 10)], by rw [hc]; rfl, hne⟩

theorem canonicalUint_of (c : Char) (rest : List Char) (hc : c ≠ '0')
    (hd : ∀ x ∈ c :: rest, x.isDigit = true) : canonicalUint (c :: rest) = true := by
  cases rest with
  | nil => simpa [canonicalUint] using hd
  | cons r rs =>
    simp only [canonicalUint, Bool.and_eq_true, List.all_eq_true, bne_iff_ne]
    exact ⟨⟨hd c (List.mem_cons_self _ _), hc⟩, fun x hx => hd x (List.mem_cons_of_mem _ hx)⟩

theorem canonicalUint_formatUint (u : Nat) : canonicalUint (formatUint u) = true := by
  rcases Nat.eq_zero_or_pos u with h | h
  · subst h; decide
  · obtain ⟨c, rest, hc, hne⟩ := formatBits_head (u + 1) u (Nat.lt_succ_self u) h
    unfold formatUint
    rw [hc]
    exact canonicalUint_of c rest hne (by rw [← hc]; exact formatBits_isDigit _ _)

theorem formatUint_ne_zero (u : Nat) (h : 1 ≤ u) : formatUint u ≠ ['0'] := by
  obtain ⟨c, rest, hc, hne⟩ := formatBits_head (u + 1) u (Nat.lt_succ_self u) h
  unfold formatUint
  rw [hc]
  intro e
  exact hne (List.cons.inj e).1

theorem isCanonicalDecimal_Itoa (i : Int) : isCanonicalDecimal (Itoa i) = true := by
  unfold Itoa
  split
  · next h =>
    simp only [isCanonicalDecimal, Bool.and_eq_true, bne_iff_ne]
    exact ⟨canonicalUint_formatUint _, formatUint_ne_zero _ (by omega)⟩
  · next h =>
    unfold isCanonicalDecimal
    split
    · next rest heq => exact absurd heq (formatUint_head_ne_minus _ _)
    · exact canonicalUint_formatUint _

/-- Claim C10. For every collection and every text `v` that is not the canonical decimal
form of an integer (the empty text, a leading plus sign, leading zeros, `-0`, spaces, a
character that is not a digit), `getAlbumByID` answers 404, whatever the collection
holds: the lookup compares texts, not numbers. -/
theorem getAlbumByID_not_canonical (s : List album) (v : String)
    (hv : isCanonicalDecimal v = false) : getAlbumByID v s = (s, notFound) := by
  apply getAlbumByID_of_none
  rw [scan_eq_none_iff]
  intro a _ e
  rw [← e, isCanonicalDecimal_Itoa] at hv
  exact absurd hv (by decide)

theorem getAlbumByID_not_canonical_witness :
    (isCanonicalDecimal "01" = false ∧ getAlbumByID "01" albums = (albums, notFound)) ∧
    (isCanonicalDecimal "+1" = false ∧ getAlbumByID "+1" albums = (albums, notFound)) ∧
    (isCanonicalDecimal " 1" = false ∧ getAlbumByID " 1" albums = (albums, notFound)) ∧
    (isCanonicalDecimal "" = false ∧ getAlbumByID "" albums = (albums, notFound)) ∧
    (isCanonicalDecimal "abc" = false ∧ getAlbumByID "abc" albums = (albums, notFound)) ∧
    (isCanonicalDecimal "-0" = false ∧
      getAlbumByID "-0" [⟨0, "Zero", "Nobody", 2000⟩] = ([⟨0, "Zero", "Nobody", 2000⟩], notFound)) :=
  ⟨⟨by decide, getAlbumByID_not_canonical albums "01" (by decide)⟩,
    ⟨by decide, getAlbumByID_not_canonical albums "+1" (by decide)⟩,
    ⟨by decide, getAlbumByID_not_canonical albums " 1" (by decide)⟩,
    ⟨by decide, getAlbumByID_not_canonical albums "" (by decide)⟩,
    ⟨by decide, getAlbumByID_not_canonical albums "abc" (by decide)⟩,
    ⟨by decide, getAlbumByID_not_canonical [⟨0, "Zero", "Nobody", 2000⟩] "-0" (by decide)⟩⟩

/-- Claim C7. After a successful `postAlbums` that bound the body to the album `P`, the
collection is the old one followed by `P`, and `getAlbumByID` with `strconv.Itoa(P.ID)`
answers 200 with the first album of the extended collection whose `ID` is `P.ID`: this is
`P` when no album held that `ID` before, and otherwise the first album that already held
it. -/
theorem getAlbumByID_after_postAlbums (s : List album) (body : Body) (P : album)
    (hP : BindJSON body = .ok P) :
    postAlbums body s = (s ++ [P], ⟨StatusCreated, .record P⟩) ∧
    ∃ y, firstWithID P.ID (s ++ [P]) = some y ∧
      getAlbumByID (Itoa P.ID) (postAlbums body s).1 = (s ++ [P], ⟨StatusOK, .record y⟩) ∧
      ((∀ a ∈ s, a.ID ≠ P.ID) → y = P) ∧
      ((∃ a ∈ s, a.ID = P.ID) → firstWithID P.ID s = some y ∧ y ∈ s) := by
  have hpost : postAlbums body s = (s ++ [P], ⟨StatusCreated, .record P⟩) := by
    simp [postAlbums, hP]
  obtain ⟨y, hy⟩ := firstWithID_of_mem (s ++ [P]) P (by simp)
  refine ⟨hpost, y, hy, ?_, ?_, ?_⟩
  · rw [hpost]; exact getAlbumByID_of_first _ _ _ hy
  · intro hfresh
    rw [firstWithID_append_of_fresh _ _ _ hfresh] at hy
    simpa [firstWithID, List.find?] using hy.symm
  · rintro ⟨a, ha, hid⟩
    obtain ⟨z, hz⟩ := firstWithID_of_mem s a ha
    rw [hid] at hz
    rw [firstWithID_append_of_some _ _ _ z hz] at hy
    rw [← Option.some.inj hy]
    exact ⟨hz, List.mem_of_find?_eq_some hz⟩

theorem getAlbumByID_after_postAlbums_witness :
    BindJSON (.value (encode ⟨5, "X", "Y", 2000⟩)) = .ok ⟨5, "X", "Y", 2000⟩ ∧
    postAlbums (.value (encode ⟨5, "X", "Y", 2000⟩)) albums =
      (albums ++ [⟨5, "X", "Y", 2000⟩], ⟨StatusCreated, .record ⟨5, "X", "Y", 2000⟩⟩) ∧
    ∃ y, firstWithID 5 (albums ++ [⟨5, "X", "Y", 2000⟩]) = some y ∧
      getAlbumByID (Itoa 5) (postAlbums (.value (encode ⟨5, "X", "Y", 2000⟩)) albums).1 =
        (albums ++ [⟨5, "X", "Y", 2000⟩], ⟨StatusOK, .record y⟩) ∧
      ((∀ a ∈ albums, a.ID ≠ 5) → y = ⟨5, "X", "Y", 2000⟩) ∧
      ((∃ a ∈ albums, a.ID = 5) → firstWithID 5 albums = some y ∧ y ∈ albums) :=
  ⟨rfl, getAlbumByID_after_postAlbums albums (.value (encode ⟨5, "X", "Y", 2000⟩))
    ⟨5, "X", "Y", 2000⟩ rfl⟩

theorem isDigit_range (c : Char) (h : c.isDigit = true) : 48 ≤ c.toNat ∧ c.toNat ≤ 57 := by
  simp only [Char.isDigit, Bool.and_eq_true, decide_eq_true_eq] at h
  exact ⟨h.1, h.2⟩

theorem char_eq_of_toNat (c d : Char) (h : c.toNat = d.toNat) : c = d := by
  apply Char.ext
  apply UInt32.ext
  exact h

theorem digit_digitVal (c : Char) (h : c.isDigit = true) : digit (digitVal c) = c := by
  obtain ⟨h1, h2⟩ := isDigit_range c h
  apply char_eq_of_toNat
  unfold digitVal
  generalize c.toNat = n at h1 h2
  interval_cases n <;> rfl

theorem digitVal_lt (c : Char) (h : c.isDigit = true) : digitVal c < 10 := by
  obtain ⟨h1, h2⟩ := isDigit_range c h
  unfold digitVal
  omega

theorem digitVal_pos (c : Char) (h : c.isDigit = true) (h0 : c ≠ '0') : 1 ≤ digitVal c := by
  obtain ⟨h1, h2⟩ := isDigit_range c h
  unfold digitVal
  rcases Nat.eq_or_lt_of_le h1 with e | e
  · exact absurd (char_eq_of_toNat c '0' e.symm) h0
  · omega

theorem formatBits_fuel (fuel fuel' u : Nat) (h : u < fuel) (h' : u < fuel') :
    formatBits fuel u = formatBits fuel' u := by
  induction fuel generalizing fuel' u with
  | zero => omega
  | succ fuel ih =>
    cases fuel' with
    | zero => omega
    | succ fuel' =>
      unfold formatBits
      split
      · rfl
      · rw [ih fuel' (u / 10) (by omega) (by omega)]

theorem formatUint_snoc (u : Nat) (c : Char) (hu : 1 ≤ u) (hc : c.isDigit = true) :
    formatUint (10 * u + digitVal c) = formatUint u ++ [c] := by
  have hd := digitVal_lt c hc
  unfold formatUint
  rw [formatBits]
  rw [if_neg (by omega)]
  have e1 : (10 * u + digitVal c) / 10 = u := by omega
  have e2 : (10 * u + digitVal c) % 10 = digitVal c := by omega
  rw [e1, e2, digit_digitVal c hc, formatBits_fuel (10 * u + digitVal c) (u + 1) u (by omega)
    (by omega)]

theorem formatUint_foldl (rest : List Char) (acc : Nat) (hacc : 1 ≤ acc)
    (hd : ∀ c ∈ rest, c.isDigit = true) :
    formatUint (rest.foldl (fun a c => 10 * a + digitVal c) acc) = formatUint acc ++ rest := by
  induction rest generalizing acc with
  | nil => simp
  | cons c r ih =>
    have hc := hd c (List.mem_cons_self _ _)
    rw [List.foldl_cons, ih (10 * acc + digitVal c) (by omega)
      (fun x hx => hd x (List.mem_cons_of_mem _ hx)), formatUint_snoc acc c hacc hc]
    simp

theorem formatUint_digitVal (c : Char) (hc : c.isDigit = true) :
    formatUint (digitVal c) = [c] := by
  have hd := digitVal_lt c hc
  unfold formatUint
  rw [formatBits, if_pos hd, digit_digitVal c hc]

theorem formatUint_parseUint (cs : List Char) (h : canonicalUint cs = true) :
    formatUint (parseUint cs) = cs := by
  match cs, h with
  | [c], h =>
    simp only [canonicalUint] at h
    simpa [parseUint] using formatUint_digitVal c h
  | c :: r :: rs, h =>
    simp only [canonicalUint, Bool.and_eq_true, List.all_eq_true, bne_iff_ne] at h
    obtain ⟨⟨hc, h0⟩, hall⟩ := h
    have := formatUint_foldl (r :: rs) (digitVal c) (digitVal_pos c hc h0) hall
    rw [formatUint_digitVal c hc] at this
    simpa [parseUint] using this

theorem Itoa_parseDecimal (v : String) (h : isCanonicalDecimal v = true) :
    Itoa (parseDecimal v) = v := by
  unfold isCanonicalDecimal at h
  unfold parseDecimal
  split at h
  · next rest heq =>
    simp only [Bool.and_eq_true, bne_iff_ne] at h
    have hf := formatUint_parseUint rest h.1
    have hpos : 1 ≤ parseUint rest := by
      rcases Nat.eq_zero_or_pos (parseUint rest) with e | e
      · rw [e] at hf
        exact absurd hf.symm h.2
      · exact e
    unfold Itoa
    rw [if_pos (by omega)]
    have e : (-(parseUint rest : Int)).natAbs = parseUint rest := by omega
    rw [e, hf, ← heq]
  · next cs hne =>
    have hf := formatUint_parseUint v.data h
    unfold Itoa
    rw [if_neg (by omega)]
    have e : ((parseUint v.data : Nat) : Int).natAbs = parseUint v.data := by omega
    rw [e, hf]

/-- A text is the canonical decimal form of an integer exactly when `strconv.Itoa`
produces it for some integer. -/
theorem isCanonicalDecimal_iff (v : String) :
    isCanonicalDecimal v = true ↔ ∃ i : Int, Itoa i = v :=
  ⟨fun h => ⟨parseDecimal v, Itoa_parseDecimal v h⟩,
    fun ⟨i, hi⟩ => hi ▸ isCanonicalDecimal_Itoa i⟩

theorem ParseInt_range (n : Int) :
    (-(2 : Int) ^ (intSize - 1) ≤ n ∧ n < (2 : Int) ^ (intSize - 1)) ↔
      (-9223372036854775808 ≤ n ∧ n ≤ 9223372036854775807) := by
  unfold intSize
  norm_num
  omega

theorem ParseInt_eq (n : Int) : ParseInt n = if fitsInt n = true then some n else none := by
  unfold ParseInt fitsInt
  simp only [ParseInt_range, decide_eq_true_eq]

theorem ParseInt_of_fits (n : Int) (h : fitsInt n = true) : ParseInt n = some n := by
  rw [ParseInt_eq, if_pos h]

theorem ParseInt_of_not_fits (n : Int) (h : fitsInt n = false) : ParseInt n = none := by
  rw [ParseInt_eq, if_neg (by simp [h])]

theorem store_savedError (d : decodeState) (f : Field) (val : JSON) :
    (store d f val).savedError = (d.savedError || (!isNull val && !storable f val)) := by
  cases f <;> cases val <;> try simp [store, saveError, isNull, storable]
  all_goals
    rename_i n
    cases hfit : fitsInt n
    · simp [store, saveError, isNull, storable, ParseInt_of_not_fits n hfit, hfit]
    · simp [store, saveError, isNull, storable, ParseInt_of_fits n hfit, hfit]

theorem store_null (d : decodeState) (f : Field) (val : JSON) (h : isNull val = true) :
    store d f val = d := by
  cases val <;> simp [isNull] at h
  cases f <;> rfl

theorem store_fieldValue_of_ne (d : decodeState) (f g : Field) (val : JSON) (h : g ≠ f) :
    fieldValue (store d f val).v g = fieldValue d.v g := by
  cases f <;> cases g <;> first | exact absurd rfl h | skip
  all_goals cases val <;> try simp [store, saveError, fieldValue]
  all_goals
    rename_i n
    cases hfit : fitsInt n
    · simp [store, saveError, fieldValue, ParseInt_of_not_fits n hfit]
    · simp [store, saveError, fieldValue, ParseInt_of_fits n hfit]

theorem store_fieldValue_of_storable (d : decodeState) (f : Field) (val : JSON)
    (h : storable f val = true) : fieldValue (store d f val).v f = val := by
  cases f <;> cases val <;> simp [storable] at h <;>
    simp [store, fieldValue, ParseInt_of_fits, h]

theorem object_cons (kv : String × JSON) (kvs : List (String × JSON)) (d : decodeState) :
    object (kv :: kvs) d =
      object kvs (match fieldOf kv.1 with
        | some f => store d f kv.2
        | none => d) := rfl

theorem object_savedError (kvs : List (String × JSON)) (d : decodeState) :
    (object kvs d).savedError = (d.savedError || kvs.any rejected) := by
  induction kvs generalizing d with
  | nil => simp [object]
  | cons kv kvs ih =>
    rw [object_cons, ih, List.any_cons]
    unfold rejected
    cases fieldOf kv.1 with
    | none => simp
    | some f => simp [store_savedError, Bool.or_assoc]

theorem members_cons (kv : String × JSON) (kvs : List (String × JSON)) (g : Field) :
    members (kv :: kvs) g =
      if fieldOf kv.1 = some g then kv.2 :: members kvs g else members kvs g := by
  unfold members
  by_cases h : fieldOf kv.1 = some g <;> simp [List.filter, h]

theorem object_fieldValue_of_missing (kvs : List (String × JSON)) (d : decodeState)
    (g : Field) (h : members kvs g = []) :
    fieldValue (object kvs d).v g = fieldValue d.v g := by
  induction kvs generalizing d with
  | nil => rfl
  | cons kv kvs ih =>
    rw [members_cons] at h
    rw [object_cons]
    cases hf : fieldOf kv.1 with
    | none =>
      rw [hf] at h
      simp at h
      exact ih d h
    | some f =>
      rw [hf] at h
      by_cases hfg : f = g
      · simp [hfg] at h
      · have hne : ¬ (some f = some g) := fun e => hfg (Option.some.inj e)
        rw [if_neg hne] at h
        simp only
        rw [ih _ h, store_fieldValue_of_ne d f g kv.2 (fun e => hfg e.symm)]

theorem object_fieldValue_of_single (kvs : List (String × JSON)) (d : decodeState)
    (g : Field) (val : JSON) (h : members kvs g = [val]) (hv : storable g val = true) :
    fieldValue (object kvs d).v g = val := by
  induction kvs generalizing d with
  | nil => simp [members] at h
  | cons kv kvs ih =>
    rw [members_cons] at h
    rw [object_cons]
    cases hf : fieldOf kv.1 with
    | none =>
      rw [hf] at h
      simp at h
      exact ih d h
    | some f =>
      rw [hf] at h
      by_cases hfg : f = g
      · subst hfg
        simp at h
        simp only
        rw [object_fieldValue_of_missing kvs _ f h.2, h.1]
        exact store_fieldValue_of_storable d f val hv
      · have hne : ¬ (some f = some g) := fun e => hfg (Option.some.inj e)
        rw [if_neg hne] at h
        simp only
        exact ih _ h

theorem mem_members (kvs : List (String × JSON)) (kv : String × JSON) (g : Field)
    (hkv : kv ∈ kvs) (hg : fieldOf kv.1 = some g) : kv.2 ∈ members kvs g := by
  unfold members
  exact List.mem_map.2 ⟨kv, List.mem_filter.2 ⟨hkv, by simp [hg]⟩, rfl⟩

theorem album_ext (a b : album) (h : ∀ f, fieldValue a f = fieldValue b f) : a = b := by
  have h1 := h .ID
  have h2 := h .Title
  have h3 := h .Artist
  have h4 := h .Year
  cases a; cases b
  simp [fieldValue] at h1 h2 h3 h4
  simp [h1, h2, h3, h4]

theorem postAlbums_of_not_rejected (s : List album) (kvs : List (String × JSON))
    (hdepth : (JSON.obj kvs).depth ≤ maxNestingDepth) (h : kvs.any rejected = false) :
    postAlbums (.value (.obj kvs)) s =
      (s ++ [(object kvs ⟨zeroAlbum, false⟩).v],
        ⟨StatusCreated, .record (object kvs ⟨zeroAlbum, false⟩).v⟩) := by
  have hs := object_savedError kvs ⟨zeroAlbum, false⟩
  rw [h] at hs
  simp at hs
  simp [postAlbums, BindJSON, unmarshal, hs, hdepth]

theorem postAlbums_of_rejected (s : List album) (kvs : List (String × JSON))
    (h : kvs.any rejected = true) :
    postAlbums (.value (.obj kvs)) s = (s, badRequest) := by
  have hs := object_savedError kvs ⟨zeroAlbum, false⟩
  rw [h] at hs
  simp at hs
  by_cases hdepth : (JSON.obj kvs).depth ≤ maxNestingDepth
  · simp [postAlbums, BindJSON, unmarshal, hs, badRequest, hdepth]
  · simp [postAlbums, BindJSON, badRequest, hdepth]

theorem postAlbums_of_too_deep (s : List album) (j : JSON)
    (hdepth : maxNestingDepth < j.depth) :
    postAlbums (.value j) s = (s, badRequest) := by
  have h : ¬ j.depth ≤ maxNestingDepth := Nat.not_le.2 hdepth
  simp [postAlbums, BindJSON, badRequest, h]

theorem depth_encode (P : album) : (encode P).depth = 1 := rfl

theorem depth_nest (n : Nat) : (nest n).depth = n := by
  induction n with
  | zero => rfl
  | succ n ih =>
    simp only [nest, JSON.depth, depthList, ih]
    omega

theorem depth_le_depthMembers (kvs : List (String × JSON)) (kv : String × JSON)
    (hkv : kv ∈ kvs) : kv.2.depth ≤ depthMembers kvs := by
  induction kvs with
  | nil => simp at hkv
  | cons x rest ih =>
    simp only [depthMembers]
    rcases List.mem_cons.1 hkv with e | e
    · subst e; exact Nat.le_max_left _ _
    · exact Nat.le_trans (ih e) (Nat.le_max_right _ _)

/-- An object with a member, whatever its key, whose value is nested as deep as the limit
is refused, because the object itself is one level more: status 400, nothing appended. -/
theorem postAlbums_of_deep_member (s : List album) (kvs : List (String × JSON))
    (kv : String × JSON) (hkv : kv ∈ kvs) (hdeep : maxNestingDepth ≤ kv.2.depth) :
    postAlbums (.value (.obj kvs)) s = (s, badRequest) := by
  apply postAlbums_of_too_deep
  have h := depth_le_depthMembers kvs kv hkv
  simp only [JSON.depth]
  omega

/-- The four members of a valid album followed by an unknown member that nests 10000
arrays: status 400 on every collection, nothing appended. -/
theorem postAlbums_nested_unknown_member (s : List album) :
    postAlbums (.value (.obj [("id", .int 5), ("title", .str "X"), ("artist", .str "Y"),
      ("year", .int 2000), ("foo", nest 10000)])) s = (s, badRequest) :=
  postAlbums_of_deep_member s _ ("foo", nest 10000) (by simp)
    (by rw [depth_nest]; exact Nat.le_refl _)

/-- No handler checks that an `ID` is new, although the comment on the field `ID` calls it
the unique key: a second album with `ID` 1 is appended to the initial collection with
status 201, and the collection then holds two albums with `ID` 1. -/
theorem postAlbums_duplicate_id :
    postAlbums (.value (encode ⟨1, "Dup", "D", 1⟩)) albums =
      (albums ++ [⟨1, "Dup", "D", 1⟩], ⟨StatusCreated, .record ⟨1, "Dup", "D", 1⟩⟩) ∧
    ((postAlbums (.value (encode ⟨1, "Dup", "D", 1⟩)) albums).1.filter
      (fun a => decide (a.ID = 1))).length = 2 := by
  decide

theorem members_encode (P : album) (f : Field) :
    members [("id", .int P.ID), ("title", .str P.Title), ("artist", .str P.Artist),
      ("year", .int P.Year)] f = [fieldValue P f] := by
  cases f <;> rfl

theorem storable_fieldValue (P : album) (hid : fitsInt P.ID = true)
    (hyear : fitsInt P.Year = true) (f : Field) : storable f (fieldValue P f) = true := by
  cases f <;> simp [storable, fieldValue, hid, hyear]

theorem storable_of_hasType_false (f : Field) (val : JSON) (h : hasType f val = false) :
    storable f val = false := by
  cases f <;> cases val <;> simp [hasType] at h <;> rfl

theorem any_rejected_of_mem (kvs : List (String × JSON)) (kv : String × JSON) (f : Field)
    (hkv : kv ∈ kvs) (hf : fieldOf kv.1 = some f) (hnull : isNull kv.2 = false)
    (hst : storable f kv.2 = false) : kvs.any rejected = true := by
  rw [List.any_eq_true]
  exact ⟨kv, hkv, by simp [rejected, hf, hnull, hst]⟩

/-- Claim C1, amended. For every collection and every album `P` whose `ID` and `Year` are
in the range of a signed 64-bit Go `int`, and for every JSON object within the nesting
limit of the decoder that carries each of the four fields exactly once with the value it
has in `P` (members in any order; the plain object of the four members has depth 1),
`postAlbums` answers 201 with `P`, and `getAlbums` on the resulting collection answers 200
with a list whose last element is `P` and whose length is the previous length plus one.
Nothing is asked of the collection or of the values: an `ID` already held and empty texts
are accepted. -/
theorem postAlbums_created (s : List album) (P : album) (kvs : List (String × JSON))
    (hid : -9223372036854775808 ≤ P.ID ∧ P.ID ≤ 9223372036854775807)
    (hyear : -9223372036854775808 ≤ P.Year ∧ P.Year ≤ 9223372036854775807)
    (hdepth : (JSON.obj kvs).depth ≤ maxNestingDepth)
    (h : ∀ f, members kvs f = [fieldValue P f]) :
    postAlbums (.value (.obj kvs)) s = (s ++ [P], ⟨StatusCreated, .record P⟩) ∧
    ∃ xs, getAlbums (postAlbums (.value (.obj kvs)) s).1 = (xs, ⟨StatusOK, .list xs⟩) ∧
      xs.getLast? = some P ∧ xs.length = s.length + 1 := by
  have hid' : fitsInt P.ID = true := by simpa [fitsInt] using hid
  have hyear' : fitsInt P.Year = true := by simpa [fitsInt] using hyear
  have hst := storable_fieldValue P hid' hyear'
  have hrej : kvs.any rejected = false := by
    rw [List.any_eq_false]
    intro kv hkv
    unfold rejected
    cases hf : fieldOf kv.1 with
    | none => simp
    | some g =>
      have hm := mem_members kvs kv g hkv hf
      rw [h g] at hm
      simp at hm
      simp [hm, hst g]
  have hv : (object kvs ⟨zeroAlbum, false⟩).v = P :=
    album_ext _ _ (fun f => object_fieldValue_of_single kvs _ f _ (h f) (hst f))
  have hpost := postAlbums_of_not_rejected s kvs hdepth hrej
  rw [hv] at hpost
  refine ⟨hpost, s ++ [P], ?_, ?_, ?_⟩
  · rw [hpost]; rfl
  · simp
  · simp

theorem postAlbums_created_witness :
    ((-9223372036854775808 : Int) ≤ 5 ∧ (5 : Int) ≤ 9223372036854775807) ∧
    ((-9223372036854775808 : Int) ≤ 2000 ∧ (2000 : Int) ≤ 9223372036854775807) ∧
    (encode ⟨5, "X", "Y", 2000⟩).depth ≤ maxNestingDepth ∧
    (∀ f, members [("id", .int 5), ("title", .str "X"), ("artist", .str "Y"),
      ("year", .int 2000)] f = [fieldValue ⟨5, "X", "Y", 2000⟩ f]) ∧
    postAlbums (.value (encode ⟨5, "X", "Y", 2000⟩)) albums =
      (albums ++ [⟨5, "X", "Y", 2000⟩], ⟨StatusCreated, .record ⟨5, "X", "Y", 2000⟩⟩) ∧
    ∃ xs, getAlbums (postAlbums (.value (encode ⟨5, "X", "Y", 2000⟩)) albums).1 =
        (xs, ⟨StatusOK, .list xs⟩) ∧
      xs.getLast? = some ⟨5, "X", "Y", 2000⟩ ∧ xs.length = albums.length + 1 :=
  ⟨by decide, by decide, by decide, members_encode ⟨5, "X", "Y", 2000⟩,
    postAlbums_created albums ⟨5, "X", "Y", 2000⟩ _ (by decide) (by decide) (by decide)
      (members_encode ⟨5, "X", "Y", 2000⟩)⟩

/-- Claim C1, counterexample. The object with `id` 5, `title` X, `artist` Y and the integer
`year` 9223372036854775808 is answered with 400 and nothing is appended: the integer
does not fit a Go `int`. -/
theorem postAlbums_year_out_of_range :
    postAlbums (.value (encode ⟨5, "X", "Y", 9223372036854775808⟩)) albums =
      (albums, badRequest) := by
  decide

/-- Claim C4, counterexample. In the object with `id` null, `title` X, `artist` Y and
`year` 2000 the member `id` does not have the type of the field, and yet `postAlbums`
answers 201 and appends the album with `ID` 0. -/
theorem postAlbums_null_id :
    (∃ kv ∈ [("id", JSON.null), ("title", JSON.str "X"), ("artist", JSON.str "Y"),
        ("year", JSON.int 2000)],
      ∃ f, fieldOf kv.1 = some f ∧ hasType f kv.2 = false) ∧
    postAlbums (.value (.obj [("id", .null), ("title", .str "X"), ("artist", .str "Y"),
        ("year", .int 2000)])) albums =
      (albums ++ [⟨0, "X", "Y", 2000⟩], ⟨StatusCreated, .record ⟨0, "X", "Y", 2000⟩⟩) :=
  ⟨⟨("id", .null), by simp, .ID, by decide, rfl⟩, by decide⟩

/-- Claim C4, amended. For every collection and every JSON object in which some member names
an album field and holds a value that is not null and does not have the type of that
field (anything but an integer literal for `id` and `year`, anything but a string for
`title` and `artist`), `postAlbums` answers 400 with the map holding
`error: Invalid JSON` and the collection after the call equals the collection before
it. -/
theorem postAlbums_wrong_type (s : List album) (kvs : List (String × JSON))
    (kv : String × JSON) (f : Field) (hkv : kv ∈ kvs) (hf : fieldOf kv.1 = some f)
    (hty : hasType f kv.2 = false) (hnull : isNull kv.2 = false) :
    postAlbums (.value (.obj kvs)) s = (s, badRequest) ∧
    (postAlbums (.value (.obj kvs)) s).1.length = s.length := by
  have h := postAlbums_of_rejected s kvs
    (any_rejected_of_mem kvs kv f hkv hf hnull (storable_of_hasType_false f kv.2 hty))
  exact ⟨h, by rw [h]⟩

theorem postAlbums_wrong_type_witness :
    (("id", JSON.str "not-an-int") ∈ [("id", JSON.str "not-an-int"), ("title", JSON.str "X"),
        ("artist", JSON.str "Y"), ("year", JSON.int 2000)]) ∧
    fieldOf "id" = some .ID ∧ hasType .ID (.str "not-an-int") = false ∧
    isNull (.str "not-an-int") = false ∧
    postAlbums (.value (.obj [("id", .str "not-an-int"), ("title", .str "X"),
        ("artist", .str "Y"), ("year", .int 2000)])) albums = (albums, badRequest) ∧
    (postAlbums (.value (.obj [("id", .str "not-an-int"), ("title", .str "X"),
        ("artist", .str "Y"), ("year", .int 2000)])) albums).1.length = albums.length :=
  ⟨by simp, by decide, rfl, rfl,
    postAlbums_wrong_type albums _ ("id", .str "not-an-int") .ID (by simp) (by decide) rfl rfl⟩

/-- Claim C5, counterexample. The object with `id` 5, `title` X, `artist` Y and no member
`year` is answered with 201; the album appended has `Year` 0 and the collection grows
by one. -/
theorem postAlbums_without_year :
    members [("id", JSON.int 5), ("title", JSON.str "X"), ("artist", JSON.str "Y")] .Year = [] ∧
    postAlbums (.value (.obj [("id", .int 5), ("title", .str "X"), ("artist", .str "Y")]))
        albums =
      (albums ++ [⟨5, "X", "Y", 0⟩], ⟨StatusCreated, .record ⟨5, "X", "Y", 0⟩⟩) ∧
    (postAlbums (.value (.obj [("id", .int 5), ("title", .str "X"), ("artist", .str "Y")]))
        albums).1.length = albums.length + 1 :=
  ⟨rfl, by decide, by decide⟩

/-- Claim C5, amended. For every collection and every JSON object in which no member names
the album field `f`: a missing field is no error. When the object is within the nesting
limit of the decoder and every member that names a field holds null or a value the field
can store, `postAlbums` answers 201, the album appended has the zero value (0 or the
empty text) in the field `f`, and the length grows by one. In the remaining cases, when
some member that names a field holds a value that is neither null nor storable, or the
object is nested deeper than the limit, `postAlbums` answers 400 and the collection,
hence its length, is unchanged. -/
theorem postAlbums_missing_field (s : List album) (kvs : List (String × JSON)) (f : Field)
    (hmiss : members kvs f = []) :
    ((JSON.obj kvs).depth ≤ maxNestingDepth → kvs.any rejected = false →
      ∃ a, postAlbums (.value (.obj kvs)) s = (s ++ [a], ⟨StatusCreated, .record a⟩) ∧
        fieldValue a f = fieldValue zeroAlbum f ∧
        (postAlbums (.value (.obj kvs)) s).1.length = s.length + 1) ∧
    (kvs.any rejected = true ∨ maxNestingDepth < (JSON.obj kvs).depth →
      postAlbums (.value (.obj kvs)) s = (s, badRequest) ∧
        (postAlbums (.value (.obj kvs)) s).1.length = s.length) := by
  constructor
  · intro hdepth h
    have hpost := postAlbums_of_not_rejected s kvs hdepth h
    refine ⟨_, hpost, object_fieldValue_of_missing kvs _ f hmiss, ?_⟩
    rw [hpost]; simp
  · intro h
    have hpost : postAlbums (.value (.obj kvs)) s = (s, badRequest) := by
      rcases h with h | h
      · exact postAlbums_of_rejected s kvs h
      · exact postAlbums_of_too_deep s _ h
    exact ⟨hpost, by rw [hpost]⟩

theorem postAlbums_missing_field_witness :
    (members [("title", JSON.str "X"), ("year", JSON.int 2000)] .ID = [] ∧
      (JSON.obj [("title", .str "X"), ("year", .int 2000)]).depth ≤ maxNestingDepth ∧
      ([("title", JSON.str "X"), ("year", JSON.int 2000)] : List (String × JSON)).any rejected
        = false ∧
      ∃ a, postAlbums (.value (.obj [("title", .str "X"), ("year", .int 2000)])) albums =
          (albums ++ [a], ⟨StatusCreated, .record a⟩) ∧
        fieldValue a .ID = fieldValue zeroAlbum .ID ∧
        (postAlbums (.value (.obj [("title", .str "X"), ("year", .int 2000)])) albums).1.length
          = albums.length + 1) ∧
    (members [("title", JSON.int 7), ("year", JSON.int 2000)] .ID = [] ∧
      ([("title", JSON.int 7), ("year", JSON.int 2000)] : List (String × JSON)).any rejected
        = true ∧
      postAlbums (.value (.obj [("title", .int 7), ("year", .int 2000)])) albums
        = (albums, badRequest) ∧
      (postAlbums (.value (.obj [("title", .int 7), ("year", .int 2000)])) albums).1.length
        = albums.length) :=
  ⟨⟨rfl, by decide, by decide,
      (postAlbums_missing_field albums [("title", .str "X"), ("year", .int 2000)] .ID rfl).1
        (by decide) (by decide)⟩,
    ⟨rfl, by decide,
      (postAlbums_missing_field albums [("title", .int 7), ("year", .int 2000)] .ID rfl).2
        (Or.inl (by decide))⟩⟩

/-- Claim C6. On the initial collection `getAlbums` answers 200 with exactly the four seed
records, in the order Abbey Road, The Dark Side of the Moon, Thriller, Back in Black. -/
theorem getAlbums_initial :
    getAlbums albums =
      (albums, ⟨StatusOK, .list
        [ ⟨1, "Abbey Road", "The Beatles", 1969⟩,
          ⟨2, "The Dark Side of the Moon", "Pink Floyd", 1973⟩,
          ⟨3, "Thriller", "Michael Jackson", 1982⟩,
          ⟨4, "Back in Black", "AC/DC", 1980⟩ ]⟩) ∧
    StatusOK = 200 ∧ albums.length = 4 :=
  ⟨rfl, rfl, rfl⟩

theorem serve_extends (s : List album) (r : Request) : ∃ t, (serve r s).1 = s ++ t := by
  cases r with
  | list => exact ⟨[], by simp [serve, getAlbums]⟩
  | create body =>
    cases h : BindJSON body with
    | error e => exact ⟨[], by simp [serve, postAlbums, h]⟩
    | ok a => exact ⟨[a], by simp [serve, postAlbums, h]⟩
  | byID id =>
    cases h : scan id s with
    | none => exact ⟨[], by simp [serve, getAlbumByID, h]⟩
    | some a => exact ⟨[], by simp [serve, getAlbumByID, h]⟩

theorem run_extends (rs : List Request) (s : List album) : ∃ t, run rs s = s ++ t := by
  induction rs generalizing s with
  | nil => exact ⟨[], by simp [run]⟩
  | cons r rs ih =>
    obtain ⟨t, ht⟩ := serve_extends s r
    obtain ⟨u, hu⟩ := ih (serve r s).1
    refine ⟨t ++ u, ?_⟩
    have : run (r :: rs) s = run rs (serve r s).1 := rfl
    rw [this, hu, ht, List.append_assoc]

/-- Claim C8. Every request leaves the collection it found as an initial segment of the
collection it leaves behind, so the length never decreases; the same holds for every
sequence of requests; and after every sequence of requests handled from the initial
collection the first four elements are the four seed records in seed order. -/
theorem collection_append_only :
    (∀ (s : List album) (r : Request),
      s <+: (serve r s).1 ∧ s.length ≤ (serve r s).1.length) ∧
    (∀ (rs : List Request) (s : List album), s <+: run rs s) ∧
    (∀ rs : List Request, (run rs albums).take 4 = albums) := by
  refine ⟨?_, ?_, ?_⟩
  · intro s r
    obtain ⟨t, ht⟩ := serve_extends s r
    exact ⟨⟨t, ht.symm⟩, by rw [ht]; simp⟩
  · intro rs s
    obtain ⟨t, ht⟩ := run_extends rs s
    exact ⟨t, ht.symm⟩
  · intro rs
    obtain ⟨t, ht⟩ := run_extends rs albums
    rw [ht]
    rfl

/-- Claim C9. `getAlbums` and `getAlbumByID` leave the collection as it is, calling either
one again with the same input gives the same answer, and `getAlbums` always answers 200
with the collection. -/
theorem reads_leave_collection (s : List album) (v : String) :
    (getAlbums s).1 = s ∧ (getAlbums s).2 = ⟨StatusOK, .list s⟩ ∧
    getAlbums (getAlbums s).1 = getAlbums s ∧
    (getAlbumByID v s).1 = s ∧
    getAlbumByID v (getAlbumByID v s).1 = getAlbumByID v s := by
  have h : (getAlbumByID v s).1 = s := by
    unfold getAlbumByID
    cases scan v s <;> rfl
  exact ⟨rfl, rfl, rfl, h, by rw [h]⟩

end Clase1
